import Mathlib

/-!
Verification of the budget-enforced job execution engine
(services/dspy_worker/app): budget accounting, hard-stop policy,
best-candidate retention, the job runner loop and the worker control loop.

Python floats are modelled by the rationals, Python ints by the integers.
Each definition is a shallow embedding of the correspondingly named
Python function or class.
-/

set_option maxRecDepth 4000

/-- Reason for enforcing a hard stop (budget.py, BudgetLimitReason). -/
inductive BudgetLimitReason where
  | MAX_CALLS
  | MAX_TOKENS
  | MAX_USD
  | MAX_DURATION
  deriving DecidableEq, Repr

/-- Aggregated usage for a job run (budget.py, BudgetUsage).
Python dataclass fields default to zero. -/
structure BudgetUsage where
  calls : Int := 0
  tokens : Int := 0
  usd : ℚ := 0
  duration_seconds : ℚ := 0
  deriving DecidableEq, Repr

/-- Budget limits as consumed by BudgetTracker.check_limits in budget.py and
as constructed by the repository's tests
(BudgetLimits(max_calls=.., max_tokens=.., max_usd=.., max_duration_seconds=..)):
four ceiling fields.  schemas.py's BudgetLimits declaration omits the
max_duration_seconds field; that omission is analysed separately via
BudgetLimitsSchema below. -/
structure BudgetLimits where
  max_calls : Int
  max_tokens : Int
  max_usd : ℚ
  max_duration_seconds : ℚ
  deriving DecidableEq, Repr

/-- BudgetTracker.record_usage (budget.py): adds the delta's calls, tokens
and usd into the running usage; duration is handled separately. -/
def record_usage (u : BudgetUsage) (delta : BudgetUsage) : BudgetUsage :=
  { u with
    calls := u.calls + delta.calls
    tokens := u.tokens + delta.tokens
    usd := u.usd + delta.usd }

/-- BudgetTracker.update_duration (budget.py): sets duration_seconds to the
caller-supplied elapsed time (not additive). -/
def update_duration (u : BudgetUsage) (duration_seconds : ℚ) : BudgetUsage :=
  { u with duration_seconds := duration_seconds }

/-- BudgetTracker.check_limits (budget.py): four ordered comparisons, each
with greater-or-equal, returning the first breached reason or none. -/
def check_limits (limits : BudgetLimits) (u : BudgetUsage) : Option BudgetLimitReason :=
  if u.calls ≥ limits.max_calls then some .MAX_CALLS
  else if u.tokens ≥ limits.max_tokens then some .MAX_TOKENS
  else if u.usd ≥ limits.max_usd then some .MAX_USD
  else if u.duration_seconds ≥ limits.max_duration_seconds then some .MAX_DURATION
  else none

/-- Modelled from the spec: the ordered list of limit dimensions, pairing the
reached-or-exceeded test of each dimension with its reason, in the spec's
fixed precedence order calls, tokens, usd, duration.  Spec-side definition
used only to state the refinement claim about check_limits. -/
def limit_checks (limits : BudgetLimits) (u : BudgetUsage) : List (Bool × BudgetLimitReason) :=
  [ (decide (u.calls ≥ limits.max_calls), .MAX_CALLS),
    (decide (u.tokens ≥ limits.max_tokens), .MAX_TOKENS),
    (decide (u.usd ≥ limits.max_usd), .MAX_USD),
    (decide (u.duration_seconds ≥ limits.max_duration_seconds), .MAX_DURATION) ]

/-- Modelled from the spec: the first breached reason in the fixed precedence
order, or none when no limit is breached. -/
def first_breached_reason (limits : BudgetLimits) (u : BudgetUsage) : Option BudgetLimitReason :=
  (((limit_checks limits u).filter (fun p => p.1)).head?).map (fun p => p.2)

/-- BudgetLimits exactly as declared in schemas.py: only max_calls,
max_tokens and max_usd, with extra attributes forbidden; there is no
max_duration_seconds field. -/
structure BudgetLimitsSchema where
  max_calls : Int
  max_tokens : Int
  max_usd : ℚ
  deriving DecidableEq, Repr

/-- BudgetTracker.check_limits evaluated against the BudgetLimits type that
schemas.py actually declares: the fourth comparison reads
limits.max_duration_seconds, an attribute that does not exist on the
schema's model, so reaching it raises AttributeError.  Fallible attribute
access is embedded as Except. -/
def check_limits_schema (limits : BudgetLimitsSchema) (u : BudgetUsage) :
    Except String (Option BudgetLimitReason) :=
  if u.calls ≥ limits.max_calls then .ok (some .MAX_CALLS)
  else if u.tokens ≥ limits.max_tokens then .ok (some .MAX_TOKENS)
  else if u.usd ≥ limits.max_usd then .ok (some .MAX_USD)
  else .error "AttributeError: max_duration_seconds"

/-- C2: check_limits evaluates the four limits in the fixed precedence order
calls, tokens, usd, duration, compares with greater-or-equal, and returns
the first breached reason in that order, or none when no limit is
breached (equality with the spec-side first-breached-in-order definition). -/
theorem check_limits_follows_precedence_order (limits : BudgetLimits) (u : BudgetUsage) :
    check_limits limits u = first_breached_reason limits u := by
  by_cases h1 : u.calls ≥ limits.max_calls <;>
    by_cases h2 : u.tokens ≥ limits.max_tokens <;>
      by_cases h3 : u.usd ≥ limits.max_usd <;>
        by_cases h4 : u.duration_seconds ≥ limits.max_duration_seconds <;>
          simp [check_limits, first_breached_reason, limit_checks, h1, h2, h3, h4]

/-- C3: against the BudgetLimits model that schemas.py actually declares,
check_limits does not return a result when calls, tokens and usd are all
unbreached and the duration comparison is reached: the attribute access
limits.max_duration_seconds fails (AttributeError), contradicting the
never-throws claim.  Concrete failing input: limits
(max_calls=10, max_tokens=100, max_usd=1) and usage
(calls=1, tokens=10, usd=1/100, duration_seconds=0). -/
theorem check_limits_schema_throws_on_duration :
    check_limits_schema ⟨10, 100, 1⟩ ⟨1, 10, 1/100, 0⟩ =
      .error "AttributeError: max_duration_seconds" := by
  norm_num [check_limits_schema]

/-- Single candidate result from an optimization step (executor.py,
CandidateResult): score, prompt text, and the usage delta contributed by
producing this candidate. -/
structure CandidateResult where
  score : ℚ
  prompt_text : String
  usage : BudgetUsage
  deriving DecidableEq, Repr

/-- BestResultStore.save_if_better (storage.py): replace the retained
candidate only when none is retained yet or the new score is strictly
greater.  The store state is the retained candidate (or none). -/
def save_if_better (best : Option CandidateResult) (candidate : CandidateResult) :
    Option CandidateResult :=
  match best with
  | none => some candidate
  | some b => if candidate.score > b.score then some candidate else some b

/-- Prompt contract identity (schemas.py, PromptSignature). -/
structure PromptSignature where
  name : String
  version : String
  input_variables : List String
  deriving DecidableEq, Repr

/-- Dataset pointer (schemas.py, DatasetReference). -/
structure DatasetReference where
  uri : String
  version : Option String := none
  split : Option String := none
  deriving DecidableEq, Repr

/-- Queue payload for optimization jobs (schemas.py, JobPayload), carrying
the budget as consumed by the worker. -/
structure JobPayload where
  job_id : String
  prompt_signature : PromptSignature
  instructions : String
  dataset_ref : DatasetReference
  budget : BudgetLimits
  deriving DecidableEq, Repr

/-- Outcome of a job run with hard-stop context (worker.py, JobRunOutcome). -/
structure JobRunOutcome where
  job_id : String
  duration_seconds : ℚ
  usage : BudgetUsage
  hard_stop : Bool
  hard_stop_reason : Option BudgetLimitReason
  best_candidate : Option CandidateResult
  deriving DecidableEq, Repr

/-- Mutable state of one JobRunner.run invocation: the tracker's usage, the
best-result store, and the index of the next call to the time source
(index 0 is the start-time call in worker.py line 45). -/
structure RunState where
  usage : BudgetUsage
  best : Option CandidateResult
  tick : Nat
  deriving DecidableEq, Repr

/-- Result of the candidate-consumption loop of JobRunner.run: final state,
the breach reason that ended the loop (none when the source was
exhausted), how many candidates were pulled from the source, and the
sequence of intermediate usage values (after each record_usage and after
each update_duration, in operation order). -/
structure LoopResult where
  state : RunState
  reason : Option BudgetLimitReason
  consumed : Nat
  trace : List BudgetUsage
  deriving DecidableEq, Repr

/-- The async-for body of JobRunner.run (worker.py lines 50-56) over the
candidate sequence the executor yields: for each candidate, update the
best store, add the usage delta, re-measure elapsed duration, then
check limits and break on the first breach. -/
def runLoop (limits : BudgetLimits) (ts : Nat → ℚ) (start : ℚ) :
    RunState → List CandidateResult → LoopResult
  | st, [] => ⟨st, none, 0, []⟩
  | st, c :: rest =>
    let u1 := record_usage st.usage c.usage
    let u2 := update_duration u1 (ts st.tick - start)
    let st1 : RunState := ⟨u2, save_if_better st.best c, st.tick + 1⟩
    match check_limits limits u2 with
    | some r => ⟨st1, some r, 1, [u1, u2]⟩
    | none =>
      let res := runLoop limits ts start st1 rest
      ⟨res.state, res.reason, res.consumed + 1, u1 :: u2 :: res.trace⟩

/-- The initial per-run state of JobRunner.run: fresh BudgetTracker usage,
fresh BestResultStore, next time-source call index 1 (index 0 produced
the start time). -/
def initRunState : RunState := ⟨{}, none, 1⟩

/-- JobRunner.run (worker.py lines 44-69), shallowly embedded over the
finite candidate sequence the executor yields and an explicit time
source indexed by call order (the code's injectable time_source). -/
def JobRunner_run (job : JobPayload) (cands : List CandidateResult) (ts : Nat → ℚ) :
    JobRunOutcome :=
  let start := ts 0
  let r := runLoop job.budget ts start initRunState cands
  let duration_seconds := ts r.state.tick - start
  { job_id := job.job_id
    duration_seconds := duration_seconds
    usage := update_duration r.state.usage duration_seconds
    hard_stop := r.reason.isSome
    hard_stop_reason := r.reason
    best_candidate := r.state.best }

/-- Number of candidates JobRunner.run pulls from the candidate source. -/
def run_consumed (job : JobPayload) (cands : List CandidateResult) (ts : Nat → ℚ) : Nat :=
  (runLoop job.budget ts (ts 0) initRunState cands).consumed

/-- The sequence of usage values the tracker passes through during one run:
the fresh initial usage, each intermediate value from the loop, and the
final post-loop update_duration value. -/
def run_usage_trace (job : JobPayload) (cands : List CandidateResult) (ts : Nat → ℚ) :
    List BudgetUsage :=
  let start := ts 0
  let r := runLoop job.budget ts start initRunState cands
  ({} : BudgetUsage) :: r.trace ++ [update_duration r.state.usage (ts r.state.tick - start)]

/-- C10: in every JobRunOutcome returned by JobRunner.run, hard_stop is true
exactly when hard_stop_reason is non-null. -/
theorem run_hard_stop_iff_reason (job : JobPayload) (cands : List CandidateResult)
    (ts : Nat → ℚ) :
    (JobRunner_run job cands ts).hard_stop = true ↔
      (JobRunner_run job cands ts).hard_stop_reason ≠ none := by
  simp [JobRunner_run, Option.isSome_iff_ne_none]

theorem runLoop_tick (limits : BudgetLimits) (ts : Nat → ℚ) (start : ℚ) :
    ∀ (cs : List CandidateResult) (st : RunState),
      (runLoop limits ts start st cs).state.tick =
        st.tick + (runLoop limits ts start st cs).consumed := by
  intro cs
  induction cs with
  | nil => intro st; simp [runLoop]
  | cons c rest ih =>
    intro st
    simp only [runLoop]
    cases h : check_limits limits
        (update_duration (record_usage st.usage c.usage) (ts st.tick - start)) with
    | some r => simp
    | none => simp [ih]; omega

theorem runLoop_consumed_le (limits : BudgetLimits) (ts : Nat → ℚ) (start : ℚ) :
    ∀ (cs : List CandidateResult) (st : RunState),
      (runLoop limits ts start st cs).consumed ≤ cs.length := by
  intro cs
  induction cs with
  | nil => intro st; simp [runLoop]
  | cons c rest ih =>
    intro st
    simp only [runLoop]
    cases h : check_limits limits
        (update_duration (record_usage st.usage c.usage) (ts st.tick - start)) with
    | some r => simp
    | none => simpa using ih _

theorem runLoop_append_of_breach (limits : BudgetLimits) (ts : Nat → ℚ) (start : ℚ) :
    ∀ (cs : List CandidateResult) (st : RunState),
      (runLoop limits ts start st cs).reason.isSome = true →
      ∀ (extra : List CandidateResult),
        runLoop limits ts start st (cs ++ extra) = runLoop limits ts start st cs := by
  intro cs
  induction cs with
  | nil => intro st h extra; simp [runLoop] at h
  | cons c rest ih =>
    intro st h extra
    simp only [List.cons_append, runLoop]
    simp only [runLoop] at h
    cases hc : check_limits limits
        (update_duration (record_usage st.usage c.usage) (ts st.tick - start)) with
    | some r => simp
    | none =>
      simp only [hc] at h
      simp [ih _ (by simpa using h) extra]

theorem runLoop_usage_sums (limits : BudgetLimits) (ts : Nat → ℚ) (start : ℚ) :
    ∀ (cs : List CandidateResult) (st : RunState),
      (runLoop limits ts start st cs).state.usage.calls =
          st.usage.calls +
            ((cs.take (runLoop limits ts start st cs).consumed).map
              (fun c => c.usage.calls)).sum ∧
        (runLoop limits ts start st cs).state.usage.tokens =
          st.usage.tokens +
            ((cs.take (runLoop limits ts start st cs).consumed).map
              (fun c => c.usage.tokens)).sum ∧
        (runLoop limits ts start st cs).state.usage.usd =
          st.usage.usd +
            ((cs.take (runLoop limits ts start st cs).consumed).map
              (fun c => c.usage.usd)).sum := by
  intro cs
  induction cs with
  | nil => intro st; simp [runLoop]
  | cons c rest ih =>
    intro st
    simp only [runLoop]
    cases hc : check_limits limits
        (update_duration (record_usage st.usage c.usage) (ts st.tick - start)) with
    | some r =>
      refine ⟨?_, ?_, ?_⟩ <;> simp [update_duration, record_usage]
    | none =>
      obtain ⟨h1, h2, h3⟩ := ih (⟨update_duration (record_usage st.usage c.usage)
        (ts st.tick - start), save_if_better st.best c, st.tick + 1⟩)
      dsimp only
      simp only [List.take_succ_cons, List.map_cons, List.sum_cons]
      refine ⟨?_, ?_, ?_⟩
      · rw [h1]; simp only [update_duration, record_usage]; ring
      · rw [h2]; simp only [update_duration, record_usage]; ring
      · rw [h3]; simp only [update_duration, record_usage]; ring

theorem runLoop_best (limits : BudgetLimits) (ts : Nat → ℚ) (start : ℚ) :
    ∀ (cs : List CandidateResult) (st : RunState),
      (runLoop limits ts start st cs).state.best =
        List.foldl save_if_better st.best
          (cs.take (runLoop limits ts start st cs).consumed) := by
  intro cs
  induction cs with
  | nil => intro st; simp [runLoop]
  | cons c rest ih =>
    intro st
    simp only [runLoop]
    cases hc : check_limits limits
        (update_duration (record_usage st.usage c.usage) (ts st.tick - start)) with
    | some r => simp
    | none =>
      simp only [List.take_succ_cons, List.foldl_cons]
      exact ih _

/-- Budget of the hard-stop-on-calls scenario
(tests/test_worker_hard_stop.py): max_calls=2, max_tokens=100, max_usd=1,
max_duration_seconds=10. -/
def demoBudget : BudgetLimits := ⟨2, 100, 1, 10⟩

/-- Job payload of the test scenario (tests/test_worker_hard_stop.py,
_job_payload). -/
def demoJob : JobPayload :=
  ⟨"job-1", ⟨"prompt", "v1", ["input"]⟩, "Do the thing",
    ⟨"file://dataset.jsonl", none, none⟩, demoBudget⟩

/-- The three candidates of the test scenario: calls=1, tokens=10, usd=0.01
each, scores 0.1, 0.2, 0.3. -/
def demoCandidates : List CandidateResult :=
  [⟨mkRat 1 10, "a", ⟨1, 10, mkRat 1 100, 0⟩⟩,
   ⟨mkRat 2 10, "b", ⟨1, 10, mkRat 1 100, 0⟩⟩,
   ⟨mkRat 3 10, "c", ⟨1, 10, mkRat 1 100, 0⟩⟩]

/-- A further candidate a defective source could offer past the breach. -/
def demoExtra : List CandidateResult := [⟨mkRat 3 10, "d", ⟨1, 10, mkRat 1 100, 0⟩⟩]

/-- Constant time source: no wall-clock time passes. -/
def demoTime : Nat → ℚ := fun _ => 0

theorem foldl_save_if_better_some (l : List CandidateResult) :
    ∀ (b0 b : CandidateResult), List.foldl save_if_better (some b0) l = some b →
      (b = b0 ∧ ∀ c ∈ l, c.score ≤ b0.score) ∨
      (b ∈ l ∧ (∀ c ∈ l, c.score ≤ b.score) ∧ b0.score < b.score ∧
        ∃ l1 l2, l = l1 ++ b :: l2 ∧ ∀ c ∈ l1, c.score < b.score) := by
  induction l with
  | nil =>
    intro b0 b hb
    simp only [List.foldl_nil, Option.some.injEq] at hb
    exact Or.inl ⟨hb.symm, by simp⟩
  | cons c rest ih =>
    intro b0 b hb
    simp only [List.foldl_cons, save_if_better] at hb
    by_cases hcb : c.score > b0.score
    · rw [if_pos hcb] at hb
      rcases ih c b hb with ⟨rfl, hall⟩ | ⟨hmem, hall, hgt, l1, l2, hsplit, hlt⟩
      · refine Or.inr ⟨by simp, ?_, hcb, [], rest, by simp, by simp⟩
        intro x hx
        rcases List.mem_cons.mp hx with rfl | hx
        · exact le_refl _
        · exact hall x hx
      · refine Or.inr ⟨List.mem_cons_of_mem _ hmem, ?_, lt_trans hcb hgt,
          c :: l1, l2, by simp [hsplit], ?_⟩
        · intro x hx
          rcases List.mem_cons.mp hx with rfl | hx
          · exact le_of_lt hgt
          · exact hall x hx
        · intro x hx
          rcases List.mem_cons.mp hx with rfl | hx
          · exact hgt
          · exact hlt x hx
    · rw [if_neg hcb] at hb
      rcases ih b0 b hb with ⟨rfl, hall⟩ | ⟨hmem, hall, hgt, l1, l2, hsplit, hlt⟩
      · refine Or.inl ⟨rfl, ?_⟩
        intro x hx
        rcases List.mem_cons.mp hx with rfl | hx
        · exact le_of_not_gt hcb
        · exact hall x hx
      · refine Or.inr ⟨List.mem_cons_of_mem _ hmem, ?_, hgt,
          c :: l1, l2, by simp [hsplit], ?_⟩
        · intro x hx
          rcases List.mem_cons.mp hx with rfl | hx
          · exact le_of_lt (lt_of_le_of_lt (le_of_not_gt hcb) hgt)
          · exact hall x hx
        · intro x hx
          rcases List.mem_cons.mp hx with rfl | hx
          · exact lt_of_le_of_lt (le_of_not_gt hcb) hgt
          · exact hlt x hx

theorem foldl_save_if_better_max_earliest (l : List CandidateResult) (b : CandidateResult)
    (hb : List.foldl save_if_better none l = some b) :
    b ∈ l ∧ (∀ c ∈ l, c.score ≤ b.score) ∧
      ∃ l1 l2, l = l1 ++ b :: l2 ∧ ∀ c ∈ l1, c.score < b.score := by
  cases l with
  | nil => simp [save_if_better] at hb
  | cons c rest =>
    simp only [List.foldl_cons, save_if_better] at hb
    rcases foldl_save_if_better_some rest c b hb with ⟨rfl, hall⟩ |
      ⟨hmem, hall, hgt, l1, l2, hsplit, hlt⟩
    · refine ⟨by simp, ?_, [], rest, by simp, by simp⟩
      intro x hx
      rcases List.mem_cons.mp hx with rfl | hx
      · exact le_refl _
      · exact hall x hx
    · refine ⟨List.mem_cons_of_mem _ hmem, ?_, c :: l1, l2, by simp [hsplit], ?_⟩
      · intro x hx
        rcases List.mem_cons.mp hx with rfl | hx
        · exact le_of_lt hgt
        · exact hall x hx
      · intro x hx
        rcases List.mem_cons.mp hx with rfl | hx
        · exact hgt
        · exact hlt x hx

/-- C1: the Job Runner consumes candidates one at a time in generation order
and stops requesting further candidates immediately after the first
candidate whose processing makes check_limits return a non-none reason:
any candidates a source could offer past the breach leave the outcome and
the consumed count unchanged.  In particular, with max_calls=2 and three
candidates each of calls=1 and scores 0.1, 0.2, 0.3, exactly 2 candidates
are consumed, hard_stop=true with reason MAX_CALLS, usage.calls=2 and the
best candidate has score 0.2. -/
theorem runner_stops_at_first_breach (job : JobPayload)
    (cands extra : List CandidateResult) (ts : Nat → ℚ)
    (h : (JobRunner_run job cands ts).hard_stop = true) :
    (JobRunner_run job (cands ++ extra) ts = JobRunner_run job cands ts ∧
        run_consumed job (cands ++ extra) ts = run_consumed job cands ts) ∧
      (run_consumed demoJob demoCandidates demoTime = 2 ∧
        (JobRunner_run demoJob demoCandidates demoTime).hard_stop = true ∧
        (JobRunner_run demoJob demoCandidates demoTime).hard_stop_reason =
          some .MAX_CALLS ∧
        (JobRunner_run demoJob demoCandidates demoTime).usage.calls = 2 ∧
        ((JobRunner_run demoJob demoCandidates demoTime).best_candidate.map
          (fun c => c.score)) = some (mkRat 2 10)) := by
  have h' : (runLoop job.budget ts (ts 0) initRunState cands).reason.isSome = true := by
    simpa [JobRunner_run] using h
  have hap := runLoop_append_of_breach job.budget ts (ts 0) cands initRunState h' extra
  refine ⟨⟨?_, ?_⟩, by norm_num [JobRunner_run, run_consumed, runLoop, check_limits, record_usage, update_duration, initRunState, save_if_better, demoJob, demoCandidates, demoBudget, demoTime, demoExtra]⟩
  · simp [JobRunner_run, hap]
  · simp [run_consumed, hap]

theorem runner_stops_at_first_breach_witness :
    (JobRunner_run demoJob demoCandidates demoTime).hard_stop = true ∧
      ((JobRunner_run demoJob (demoCandidates ++ demoExtra) demoTime =
            JobRunner_run demoJob demoCandidates demoTime ∧
          run_consumed demoJob (demoCandidates ++ demoExtra) demoTime =
            run_consumed demoJob demoCandidates demoTime) ∧
        (run_consumed demoJob demoCandidates demoTime = 2 ∧
          (JobRunner_run demoJob demoCandidates demoTime).hard_stop = true ∧
          (JobRunner_run demoJob demoCandidates demoTime).hard_stop_reason =
            some .MAX_CALLS ∧
          (JobRunner_run demoJob demoCandidates demoTime).usage.calls = 2 ∧
          ((JobRunner_run demoJob demoCandidates demoTime).best_candidate.map
            (fun c => c.score)) = some (mkRat 2 10))) :=
  ⟨by norm_num [JobRunner_run, run_consumed, runLoop, check_limits, record_usage, update_duration, initRunState, save_if_better, demoJob, demoCandidates, demoBudget, demoTime, demoExtra],
    runner_stops_at_first_breach demoJob demoCandidates demoExtra demoTime
      (by norm_num [JobRunner_run, run_consumed, runLoop, check_limits, record_usage, update_duration, initRunState, save_if_better, demoJob, demoCandidates, demoBudget, demoTime, demoExtra])⟩

/-- C4: the final usage in the JobRunOutcome has calls, tokens and usd each
equal to the sum of the corresponding delta of every candidate actually
consumed during the run (the consumed prefix, including the candidate
that triggered a hard stop, and nothing past it). -/
theorem run_usage_is_sum_of_consumed_deltas (job : JobPayload)
    (cands : List CandidateResult) (ts : Nat → ℚ) :
    (JobRunner_run job cands ts).usage.calls =
        ((cands.take (run_consumed job cands ts)).map (fun c => c.usage.calls)).sum ∧
      (JobRunner_run job cands ts).usage.tokens =
        ((cands.take (run_consumed job cands ts)).map (fun c => c.usage.tokens)).sum ∧
      (JobRunner_run job cands ts).usage.usd =
        ((cands.take (run_consumed job cands ts)).map (fun c => c.usage.usd)).sum := by
  obtain ⟨h1, h2, h3⟩ := runLoop_usage_sums job.budget ts (ts 0) cands initRunState
  refine ⟨?_, ?_, ?_⟩
  · simp only [JobRunner_run, run_consumed, update_duration]
    rw [h1]; simp [initRunState]
  · simp only [JobRunner_run, run_consumed, update_duration]
    rw [h2]; simp [initRunState]
  · simp only [JobRunner_run, run_consumed, update_duration]
    rw [h3]; simp [initRunState]

/-- C5: the retained best candidate has the maximum score among all
candidates consumed in the run, and on score ties the earliest-consumed
candidate is retained: every consumed candidate scores at most the
retained one, and all candidates consumed before the retained one score
strictly less. -/
theorem best_candidate_max_score_earliest_tie (job : JobPayload)
    (cands : List CandidateResult) (ts : Nat → ℚ) (b : CandidateResult)
    (hb : (JobRunner_run job cands ts).best_candidate = some b) :
    b ∈ cands.take (run_consumed job cands ts) ∧
      (∀ c ∈ cands.take (run_consumed job cands ts), c.score ≤ b.score) ∧
      ∃ l1 l2, cands.take (run_consumed job cands ts) = l1 ++ b :: l2 ∧
        ∀ c ∈ l1, c.score < b.score := by
  have hbest := runLoop_best job.budget ts (ts 0) cands initRunState
  have hfold : List.foldl save_if_better none
      (cands.take (run_consumed job cands ts)) = some b := by
    have hb' : (runLoop job.budget ts (ts 0) initRunState cands).state.best = some b := by
      simpa [JobRunner_run] using hb
    rw [hbest] at hb'
    simpa [run_consumed, initRunState] using hb'
  exact foldl_save_if_better_max_earliest _ _ hfold

theorem best_candidate_max_score_earliest_tie_witness :
    (JobRunner_run demoJob demoCandidates demoTime).best_candidate =
        some ⟨mkRat 2 10, "b", ⟨1, 10, mkRat 1 100, 0⟩⟩ ∧
      (⟨mkRat 2 10, "b", ⟨1, 10, mkRat 1 100, 0⟩⟩ ∈
          demoCandidates.take (run_consumed demoJob demoCandidates demoTime) ∧
        (∀ c ∈ demoCandidates.take (run_consumed demoJob demoCandidates demoTime),
          c.score ≤ (⟨mkRat 2 10, "b", ⟨1, 10, mkRat 1 100, 0⟩⟩ : CandidateResult).score) ∧
        ∃ l1 l2, demoCandidates.take (run_consumed demoJob demoCandidates demoTime) =
            l1 ++ ⟨mkRat 2 10, "b", ⟨1, 10, mkRat 1 100, 0⟩⟩ :: l2 ∧
          ∀ c ∈ l1, c.score < (⟨mkRat 2 10, "b", ⟨1, 10, mkRat 1 100, 0⟩⟩ : CandidateResult).score) :=
  ⟨by norm_num [JobRunner_run, run_consumed, runLoop, check_limits, record_usage, update_duration, initRunState, save_if_better, demoJob, demoCandidates, demoBudget, demoTime, demoExtra],
    best_candidate_max_score_earliest_tie demoJob demoCandidates demoTime
      ⟨mkRat 2 10, "b", ⟨1, 10, mkRat 1 100, 0⟩⟩ (by norm_num [JobRunner_run, run_consumed, runLoop, check_limits, record_usage, update_duration, initRunState, save_if_better, demoJob, demoCandidates, demoBudget, demoTime, demoExtra])⟩

/-- Lifecycle states for a job run (status.py, RunStatus). -/
inductive RunStatus where
  | RUNNING
  | COMPLETED
  | HARD_STOPPED
  deriving DecidableEq, Repr

/-- Persisted status record for a job run (status.py, RunStatusRecord). -/
structure RunStatusRecord where
  job_id : String
  status : RunStatus
  hard_stop_reason : Option BudgetLimitReason := none
  best_candidate : Option CandidateResult := none
  deriving DecidableEq, Repr

/-- StaticJobExecutor.iterate_candidates (executor.py): yields exactly one
candidate with score 0, the job's instructions as prompt text, and usage
calls=1, tokens=min(256, max_tokens), usd=min(0.01, max_usd). -/
def StaticJobExecutor_candidates (job : JobPayload) : List CandidateResult :=
  [⟨0, job.instructions,
    ⟨1, min 256 job.budget.max_tokens, min (mkRat 1 100) job.budget.max_usd, 0⟩⟩]

/-- WorkerService._process_job (worker.py lines 102-154): the sequence of
status records written for one job, parametrized by the candidate
sequence the runner's executor yields (the service's default wiring uses
StaticJobExecutor) and the run's time source: first a RUNNING record,
then, after the runner returns, exactly one terminal record built from
the JobRunOutcome (HARD_STOPPED with reason and best candidate when
hard_stop, else COMPLETED with the best candidate). -/
def process_job_records (job : JobPayload) (cands : List CandidateResult) (ts : Nat → ℚ) :
    List RunStatusRecord :=
  let outcome := JobRunner_run job cands ts
  [⟨job.job_id, .RUNNING, none, none⟩] ++
    (if outcome.hard_stop then
      [⟨job.job_id, .HARD_STOPPED, outcome.hard_stop_reason, outcome.best_candidate⟩]
    else
      [⟨job.job_id, .COMPLETED, none, outcome.best_candidate⟩])

/-- C7: the status records written for a job's run are exactly a RUNNING
record followed by one terminal record, COMPLETED or HARD_STOPPED, the
terminal record carrying the outcome's reason (when hard-stopped) and
best candidate; RUNNING appears exactly once, so the run never re-enters
RUNNING. -/
theorem process_job_status_lifecycle (job : JobPayload) (cands : List CandidateResult)
    (ts : Nat → ℚ) :
    ∃ term : RunStatusRecord,
      process_job_records job cands ts = [⟨job.job_id, .RUNNING, none, none⟩, term] ∧
        term.job_id = job.job_id ∧
        (term.status = .COMPLETED ∨ term.status = .HARD_STOPPED) ∧
        (term.status = .HARD_STOPPED ↔ (JobRunner_run job cands ts).hard_stop = true) ∧
        (term.status = .HARD_STOPPED →
          term.hard_stop_reason = (JobRunner_run job cands ts).hard_stop_reason) ∧
        term.best_candidate = (JobRunner_run job cands ts).best_candidate ∧
        ((process_job_records job cands ts).map RunStatusRecord.status).count
          RunStatus.RUNNING = 1 := by
  by_cases h : (JobRunner_run job cands ts).hard_stop = true
  · refine ⟨⟨job.job_id, .HARD_STOPPED, (JobRunner_run job cands ts).hard_stop_reason,
      (JobRunner_run job cands ts).best_candidate⟩,
      by simp [process_job_records, h], rfl, Or.inr rfl, by simp [h], fun _ => rfl, rfl,
      by simp [process_job_records, h, List.count_cons]⟩
  · refine ⟨⟨job.job_id, .COMPLETED, none,
      (JobRunner_run job cands ts).best_candidate⟩,
      by simp [process_job_records, h], rfl, Or.inl rfl, by simp [h], by simp, rfl,
      by simp [process_job_records, h, List.count_cons]⟩

/-- Result of one invocation of WorkerService.run_forever over a finite job
backlog: the jobs fully processed, the number of jobs pulled from the
queue, and all status records written. -/
structure WorkerLoopResult where
  processed : List JobPayload
  dequeued : Nat
  records : List RunStatusRecord
  deriving Repr

/-- WorkerService.run_forever (worker.py lines 87-100) over a finite job
backlog.  QueueClient.iterate_jobs yields one job per get_job call, so
each loop iteration first pulls the next job from the queue, then checks
the shutdown flag: if set, it breaks without processing the pulled job;
otherwise it runs _process_job to completion before the next iteration.
The shutdown flag is a function of the iteration index (single-threaded
cooperative scheduling: the flag can only change at await points,
between iterations); candsOf gives each job's candidate sequence and
tss the time source of the run started at each iteration. -/
def run_forever (flag : Nat → Bool) (candsOf : JobPayload → List CandidateResult)
    (tss : Nat → Nat → ℚ) : Nat → List JobPayload → WorkerLoopResult
  | _, [] => ⟨[], 0, []⟩
  | i, job :: rest =>
    if flag i then ⟨[], 1, []⟩
    else
      let r := run_forever flag candsOf tss (i + 1) rest
      ⟨job :: r.processed, r.dequeued + 1,
        process_job_records job (candsOf job) (tss i) ++ r.records⟩

theorem run_forever_processed_is_front (flag : Nat → Bool)
    (candsOf : JobPayload → List CandidateResult) (tss : Nat → Nat → ℚ) :
    ∀ (jobs : List JobPayload) (i : Nat),
      (run_forever flag candsOf tss i jobs).processed =
        jobs.take (run_forever flag candsOf tss i jobs).processed.length := by
  intro jobs
  induction jobs with
  | nil => intro i; simp [run_forever]
  | cons job rest ih =>
    intro i
    simp only [run_forever]
    by_cases h : flag i
    · simp [h]
    · simp only [h, if_false, Bool.false_eq_true]
      simp only [List.length_cons, List.take_succ_cons]
      exact congrArg (List.cons job) (ih (i + 1))

theorem run_forever_stops_by_flag (flag : Nat → Bool) (k : Nat)
    (candsOf : JobPayload → List CandidateResult) (tss : Nat → Nat → ℚ)
    (hmono : ∀ i j, i ≤ j → flag i = true → flag j = true)
    (hk : flag k = true) :
    ∀ (jobs : List JobPayload) (i : Nat),
      (run_forever flag candsOf tss i jobs).processed.length = 0 ∨
        i + (run_forever flag candsOf tss i jobs).processed.length ≤ k := by
  intro jobs
  induction jobs with
  | nil => intro i; left; simp [run_forever]
  | cons job rest ih =>
    intro i
    simp only [run_forever]
    by_cases h : flag i
    · left; simp [h]
    · right
      have hik : i < k := by
        by_contra hik
        exact h (hmono k i (by omega) hk)
      simp only [h, if_false, Bool.false_eq_true, List.length_cons]
      rcases ih (i + 1) with h0 | hle
      · simp [h0]; omega
      · simp; omega

theorem run_forever_dequeued_bound (flag : Nat → Bool)
    (candsOf : JobPayload → List CandidateResult) (tss : Nat → Nat → ℚ) :
    ∀ (jobs : List JobPayload) (i : Nat),
      (run_forever flag candsOf tss i jobs).dequeued ≤
        (run_forever flag candsOf tss i jobs).processed.length + 1 := by
  intro jobs
  induction jobs with
  | nil => intro i; simp [run_forever]
  | cons job rest ih =>
    intro i
    simp only [run_forever]
    by_cases h : flag i
    · simp [h]
    · simp only [h, if_false, Bool.false_eq_true, List.length_cons]
      have := ih (i + 1)
      simp; omega

theorem process_job_records_length (job : JobPayload) (cands : List CandidateResult)
    (ts : Nat → ℚ) : (process_job_records job cands ts).length = 2 := by
  by_cases h : (JobRunner_run job cands ts).hard_stop <;> simp [process_job_records, h]

theorem run_forever_records_complete (flag : Nat → Bool)
    (candsOf : JobPayload → List CandidateResult) (tss : Nat → Nat → ℚ) :
    ∀ (jobs : List JobPayload) (i : Nat),
      (run_forever flag candsOf tss i jobs).records.length =
        2 * (run_forever flag candsOf tss i jobs).processed.length := by
  intro jobs
  induction jobs with
  | nil => intro i; simp [run_forever]
  | cons job rest ih =>
    intro i
    simp only [run_forever]
    by_cases h : flag i
    · simp [h]
    · simp only [h, if_false, Bool.false_eq_true, List.length_cons, List.length_append]
      have := ih (i + 1)
      simp [process_job_records_length]; omega

/-- C8: once the shutdown flag is set, the Worker Service stops pulling new
jobs and returns: the processed jobs are an initial segment of the
backlog, no job is processed at or after the iteration where the flag is
set, at most one further queue pull happens before the flag is observed
set (and none after), and every processed job writes its complete pair
of status records — no job is interrupted mid-run by shutdown. -/
theorem shutdown_stops_consumption (flag : Nat → Bool)
    (candsOf : JobPayload → List CandidateResult) (tss : Nat → Nat → ℚ)
    (jobs : List JobPayload) (k : Nat)
    (hmono : ∀ i j, i ≤ j → flag i = true → flag j = true)
    (hk : flag k = true) :
    (run_forever flag candsOf tss 0 jobs).processed =
        jobs.take (run_forever flag candsOf tss 0 jobs).processed.length ∧
      (run_forever flag candsOf tss 0 jobs).processed.length ≤ k ∧
      (run_forever flag candsOf tss 0 jobs).dequeued ≤
        (run_forever flag candsOf tss 0 jobs).processed.length + 1 ∧
      (run_forever flag candsOf tss 0 jobs).dequeued ≤ k + 1 ∧
      (run_forever flag candsOf tss 0 jobs).records.length =
        2 * (run_forever flag candsOf tss 0 jobs).processed.length := by
  have hlen : (run_forever flag candsOf tss 0 jobs).processed.length ≤ k := by
    rcases run_forever_stops_by_flag flag k candsOf tss hmono hk jobs 0 with h0 | hle
    · omega
    · omega
  refine ⟨run_forever_processed_is_front flag candsOf tss jobs 0, hlen, ?_, ?_, ?_⟩
  · exact run_forever_dequeued_bound flag candsOf tss jobs 0
  · have := run_forever_dequeued_bound flag candsOf tss jobs 0
    omega
  · exact run_forever_records_complete flag candsOf tss jobs 0

/-- Fieldwise ordering on usage values: every budget dimension of the first
is at most that of the second. -/
def usage_le (a b : BudgetUsage) : Prop :=
  a.calls ≤ b.calls ∧ a.tokens ≤ b.tokens ∧ a.usd ≤ b.usd ∧
    a.duration_seconds ≤ b.duration_seconds

theorem runLoop_trace_chain (limits : BudgetLimits) (ts : Nat → ℚ)
    (hts : ∀ i j : Nat, i ≤ j → ts i ≤ ts j) :
    ∀ (cs : List CandidateResult) (st : RunState),
      (∀ c ∈ cs, 0 ≤ c.usage.calls ∧ 0 ≤ c.usage.tokens ∧ 0 ≤ c.usage.usd) →
      st.usage.duration_seconds = ts (st.tick - 1) - ts 0 →
      List.Chain' usage_le
        (st.usage :: (runLoop limits ts (ts 0) st cs).trace ++
          [update_duration (runLoop limits ts (ts 0) st cs).state.usage
            (ts (runLoop limits ts (ts 0) st cs).state.tick - ts 0)]) := by
  intro cs
  induction cs with
  | nil =>
    intro st hcs hdur
    simp only [runLoop, List.nil_append]
    apply List.chain'_pair.mpr
    refine ⟨le_refl _, le_refl _, le_refl _, ?_⟩
    rw [hdur]
    exact sub_le_sub_right (hts _ _ (Nat.sub_le _ _)) _
  | cons c rest ih =>
    intro st hcs hdur
    have hc := hcs c (List.mem_cons_self c rest)
    have hcrest : ∀ x ∈ rest, 0 ≤ x.usage.calls ∧ 0 ≤ x.usage.tokens ∧ 0 ≤ x.usage.usd :=
      fun x hx => hcs x (List.mem_cons_of_mem c hx)
    simp only [runLoop]
    cases hck : check_limits limits
        (update_duration (record_usage st.usage c.usage) (ts st.tick - ts 0)) with
    | some r =>
      dsimp only
      simp only [List.cons_append, List.nil_append]
      refine List.Chain'.cons ?_ (List.Chain'.cons ?_ (List.Chain'.cons ?_
        (List.chain'_singleton _)))
      · exact ⟨le_add_of_nonneg_right hc.1, le_add_of_nonneg_right hc.2.1,
          le_add_of_nonneg_right hc.2.2, le_refl _⟩
      · refine ⟨le_refl _, le_refl _, le_refl _, ?_⟩
        show st.usage.duration_seconds ≤ ts st.tick - ts 0
        rw [hdur]
        exact sub_le_sub_right (hts _ _ (Nat.sub_le _ _)) _
      · refine ⟨le_refl _, le_refl _, le_refl _, ?_⟩
        show ts st.tick - ts 0 ≤ ts (st.tick + 1) - ts 0
        exact sub_le_sub_right (hts _ _ (Nat.le_succ _)) _
    | none =>
      dsimp only
      have hih := ih ⟨update_duration (record_usage st.usage c.usage) (ts st.tick - ts 0),
        save_if_better st.best c, st.tick + 1⟩ hcrest (by simp [update_duration])
      simp only [List.cons_append]
      refine List.Chain'.cons ?_ (List.Chain'.cons ?_ ?_)
      · exact ⟨le_add_of_nonneg_right hc.1, le_add_of_nonneg_right hc.2.1,
          le_add_of_nonneg_right hc.2.2, le_refl _⟩
      · refine ⟨le_refl _, le_refl _, le_refl _, ?_⟩
        show st.usage.duration_seconds ≤ ts st.tick - ts 0
        rw [hdur]
        exact sub_le_sub_right (hts _ _ (Nat.sub_le _ _)) _
      · exact hih

/-- C9: during one run, every field of the tracked usage is monotonically
non-decreasing across the sequence of record_usage and update_duration
operations the runner performs, given non-negative candidate deltas and
a monotone time source; and duration_seconds is set to the re-measured
total elapsed time (last time-source reading minus the start reading),
not a running sum. -/
theorem run_usage_monotone (job : JobPayload) (cands : List CandidateResult)
    (ts : Nat → ℚ)
    (hc : ∀ c ∈ cands, 0 ≤ c.usage.calls ∧ 0 ≤ c.usage.tokens ∧ 0 ≤ c.usage.usd)
    (hts : ∀ i j : Nat, i ≤ j → ts i ≤ ts j) :
    List.Chain' usage_le (run_usage_trace job cands ts) ∧
      (JobRunner_run job cands ts).duration_seconds =
        ts (1 + run_consumed job cands ts) - ts 0 := by
  constructor
  · have hchain := runLoop_trace_chain job.budget ts hts cands initRunState hc
      (by simp [initRunState])
    simpa [run_usage_trace, initRunState] using hchain
  · have ht := runLoop_tick job.budget ts (ts 0) cands initRunState
    simp only [JobRunner_run, run_consumed]
    rw [ht]
    simp [initRunState]

/-- Time source advancing one second per reading. -/
def linTime : Nat → ℚ := fun n => (n : ℚ)

theorem linTime_mono : ∀ i j : Nat, i ≤ j → linTime i ≤ linTime j := by
  intro i j h
  simp only [linTime]
  exact_mod_cast h

theorem run_usage_monotone_witness :
    ((∀ c ∈ demoCandidates, 0 ≤ c.usage.calls ∧ 0 ≤ c.usage.tokens ∧ 0 ≤ c.usage.usd) ∧
        (∀ i j : Nat, i ≤ j → linTime i ≤ linTime j)) ∧
      (List.Chain' usage_le (run_usage_trace demoJob demoCandidates linTime) ∧
        (JobRunner_run demoJob demoCandidates linTime).duration_seconds =
          linTime (1 + run_consumed demoJob demoCandidates linTime) - linTime 0) :=
  ⟨⟨by decide, linTime_mono⟩,
    run_usage_monotone demoJob demoCandidates linTime (by decide) linTime_mono⟩

/-- Shutdown flag that becomes set from the second loop iteration onward. -/
def wFlag : Nat → Bool := fun i => decide (1 ≤ i)

theorem wFlag_mono : ∀ i j : Nat, i ≤ j → wFlag i = true → wFlag j = true := by
  intro i j hij hi
  simp only [wFlag, decide_eq_true_eq] at hi ⊢
  omega

/-- Empty candidate source for every job (source exhausts immediately). -/
def wCands : JobPayload → List CandidateResult := fun _ => []

/-- Time sources for the worker-loop scenario: no wall-clock time passes. -/
def wTss : Nat → Nat → ℚ := fun _ _ => 0

/-- A three-job backlog for the shutdown scenario. -/
def wJobs : List JobPayload := [demoJob, demoJob, demoJob]

theorem shutdown_stops_consumption_witness :
    ((∀ i j : Nat, i ≤ j → wFlag i = true → wFlag j = true) ∧ wFlag 1 = true) ∧
      ((run_forever wFlag wCands wTss 0 wJobs).processed =
          wJobs.take (run_forever wFlag wCands wTss 0 wJobs).processed.length ∧
        (run_forever wFlag wCands wTss 0 wJobs).processed.length ≤ 1 ∧
        (run_forever wFlag wCands wTss 0 wJobs).dequeued ≤
          (run_forever wFlag wCands wTss 0 wJobs).processed.length + 1 ∧
        (run_forever wFlag wCands wTss 0 wJobs).dequeued ≤ 1 + 1 ∧
        (run_forever wFlag wCands wTss 0 wJobs).records.length =
          2 * (run_forever wFlag wCands wTss 0 wJobs).processed.length) :=
  ⟨⟨wFlag_mono, by decide⟩,
    shutdown_stops_consumption wFlag wCands wTss wJobs 1 wFlag_mono (by decide)⟩

/-- JobRunner.run driven by a candidate source that yields cands and then,
when fails is true, raises instead of ending the stream.  worker.py has
no try/except around the async-for, so the exception propagates out of
run before the post-loop code: no JobRunOutcome is produced and the
exception carries no usage.  A hard stop inside cands breaks out of the
loop before the failing pull, so the run still succeeds in that case. -/
def JobRunner_run_failing_source (job : JobPayload) (cands : List CandidateResult)
    (fails : Bool) (ts : Nat → ℚ) : Except Unit JobRunOutcome :=
  if (runLoop job.budget ts (ts 0) initRunState cands).reason.isSome || !fails then
    .ok (JobRunner_run job cands ts)
  else .error ()

/-- WorkerService.run_forever given each job's run result (worker.py lines
87-100): the loop body awaits _process_job with no handler for ordinary
exceptions (only asyncio.CancelledError is caught), so the first failing
job's exception propagates and terminates the loop; later jobs are never
processed. -/
def run_forever_outcomes : List (Except Unit JobRunOutcome) →
    Except Unit (List JobRunOutcome)
  | [] => .ok []
  | .error e :: _ => .error e
  | .ok o :: rest => (run_forever_outcomes rest).map (fun l => o :: l)

/-- Generous budget that the single demo candidate does not breach. -/
def failBudget : BudgetLimits := ⟨10, 1000, 10, 100⟩

/-- Job payload for the failing-source scenario. -/
def failJob : JobPayload :=
  ⟨"job-2", ⟨"prompt", "v1", ["input"]⟩, "Do the thing",
    ⟨"file://dataset.jsonl", none, none⟩, failBudget⟩

/-- One candidate the failing source yields before raising. -/
def failCandidates : List CandidateResult := [⟨mkRat 1 10, "a", ⟨1, 10, mkRat 1 100, 0⟩⟩]

/-- C6: when the Candidate Source raises mid-stream after one candidate, the
run is aborted and the failure surfaces to the caller - but contrary to
the claim, the usage accumulated so far (calls=1) is not reported, since
no JobRunOutcome is produced, and the failure terminates the Worker
Service's loop, which catches only asyncio.CancelledError: with a
healthy job queued after the failing one, the loop dies without
processing it. -/
theorem failing_source_loses_usage_and_kills_loop :
    JobRunner_run_failing_source failJob failCandidates true demoTime = .error () ∧
      (JobRunner_run failJob failCandidates demoTime).usage.calls = 1 ∧
      run_forever_outcomes
        [JobRunner_run_failing_source failJob failCandidates true demoTime,
          JobRunner_run_failing_source failJob failCandidates false demoTime] =
        .error () := by
  refine ⟨?_, ?_, ?_⟩
  · norm_num [JobRunner_run_failing_source, runLoop, check_limits, record_usage,
      update_duration, initRunState, failJob, failCandidates, failBudget, demoTime]
  · norm_num [JobRunner_run, runLoop, check_limits, record_usage,
      update_duration, initRunState, save_if_better, failJob, failCandidates,
      failBudget, demoTime]
  · norm_num [run_forever_outcomes, JobRunner_run_failing_source, runLoop,
      check_limits, record_usage, update_duration, initRunState, failJob,
      failCandidates, failBudget, demoTime]
